import Mathlib

/-!
Verification of the GA4 monthly analytics agent
(`avisia_analytics_agent/adk_agent.py`).

The data-processing pipeline of the agent is shallowly embedded below:

* Python dicts with string keys are modelled as insertion-ordered
  association lists (`List (String × _)`) together with `dinsert`, which
  mirrors dict assignment (overwrite in place, append when absent), and
  `List.lookup` for reads.
* A raw GA4 row dict is `GA4Row`; a field is `none` when the
  corresponding key is absent from the dict.  Numeric metric strings are
  modelled by their rational value; Python `int(...)` on such a value is
  `pyInt` (truncation toward zero) and `float(...)` is the identity.
* Fallible code is modelled with `Option`/`Except`: a `none`/`.error`
  result stands for a raised Python exception.
* `list.sort(key=..., reverse=True)` is modelled by `sortDesc`, a stable
  descending insertion sort; Python's sort is stable, and a stable
  descending sort is extensionally unique, so this is the same function.
* Python `sorted` on strings compares code points lexicographically,
  modelled by `lexLe` on the underlying character lists.
-/

namespace Avisia

/-- Python `int(q)` on a numeric value: truncation toward zero. -/
def pyInt (q : Rat) : Int := if 0 ≤ q then q.floor else q.ceil

/-- Python string `lower()` (ASCII-relevant part). -/
def lowerStr (s : String) : String := String.mk (s.data.map Char.toLower)

/-- Python `needle in hay` substring test, on character lists. -/
def containsSub (needle : List Char) : List Char → Bool
  | [] => needle.isEmpty
  | c :: rest => needle.isPrefixOf (c :: rest) || containsSub needle rest

/-- Lexicographic code-point comparison of strings, as Python `<=` on `str`. -/
def lexLe : List Char → List Char → Bool
  | [], _ => true
  | _ :: _, [] => false
  | a :: as, b :: bs => if a < b then true else if a = b then lexLe as bs else false

/-- Python dict assignment `m[k] = v` on an insertion-ordered association
list: overwrite in place when the key exists, append otherwise. -/
def dinsert {β : Type} (m : List (String × β)) (k : String) (v : β) :
    List (String × β) :=
  if (m.lookup k).isSome then
    m.map (fun p => if p.1 = k then (k, v) else p)
  else
    m ++ [(k, v)]

/-- Python `s.add(x)` on a set modelled as an insertion-ordered
duplicate-free list (only membership in the result is ever used). -/
def sinsert (l : List String) (x : String) : List String :=
  if x ∈ l then l else l ++ [x]

/-- Stable insertion of `x` into a descending-by-`key` sorted list:
`x` goes after every element whose key is `≥` its own. -/
def insertDesc {α : Type} (key : α → Int) (x : α) : List α → List α
  | [] => [x]
  | y :: ys => if key x < key y then y :: insertDesc key x ys else x :: y :: ys

/-- `list.sort(key=key, reverse=True)`: stable descending sort. -/
def sortDesc {α : Type} (key : α → Int) (l : List α) : List α :=
  l.foldr (insertDesc key) []

/-- Insertion into an ascending (`lexLe`) sorted list of strings. -/
def insertAsc (x : String) : List String → List String
  | [] => [x]
  | y :: ys => if lexLe x.data y.data then x :: y :: ys else y :: insertAsc x ys

/-- Python `sorted(...)` on a list of (distinct) strings. -/
def sortAsc (l : List String) : List String :=
  l.foldr insertAsc []

/-- One raw GA4 row.  `dimensionValues`/`metricValues` are `none` when the
key is absent from the row dict; each entry models an inner dict `{...}`
whose `"value"` key may itself be absent (`none`). -/
structure GA4Row where
  dimensionValues : Option (List (Option String))
  metricValues : Option (List (Option Rat))
deriving DecidableEq

/-- A raw GA4 response; `none` models a falsy response or one without a
`"rows"` key, `some rows` the value of the `"rows"` key. -/
abbrev RawData : Type := Option (List GA4Row)

/-- `int(metrics[i].get("value", 0)) if len(metrics) > i else 0`. -/
def metInt (ms : List (Option Rat)) (i : Nat) : Int :=
  match ms.get? i with
  | some entry => pyInt (entry.getD 0)
  | none => 0

/-- `float(metrics[i].get("value", 0)) if len(metrics) > i else 0`. -/
def metFloat (ms : List (Option Rat)) (i : Nat) : Rat :=
  match ms.get? i with
  | some entry => entry.getD 0
  | none => 0

/-- One `channel_data` dict built by `process_ga4_response`. -/
structure ChannelData where
  channel : String
  sessions : Int
  conversions : Int
  revenue : Rat
  engagement_rate : Rat
  avg_session_duration : Rat
deriving DecidableEq

/-- `row.get("dimensionValues", [{}])[0].get("value", "Unknown")`.
`none` models the `IndexError` raised when `dimensionValues` is present
but is an empty list (the default `[{}]` only applies when the key is
absent). -/
def rowLabel (row : GA4Row) : Option String :=
  (row.dimensionValues.getD [none]).head?.map (fun e => e.getD "Unknown")

/-- The `channel_data` dict built for one row of `process_ga4_response`
(lines 141-152); `none` models the `IndexError` from `rowLabel`. -/
def rowToChannelData (row : GA4Row) : Option ChannelData :=
  (rowLabel row).map fun c =>
    let ms := row.metricValues.getD []
    { channel := c
      sessions := metInt ms 0
      conversions := metInt ms 1
      revenue := metFloat ms 2
      engagement_rate := metFloat ms 3
      avg_session_duration := metFloat ms 4 }

/-- The `processed_data` dict of `process_ga4_response`.  `email_focus` /
`social_focus` are `none` for the initial `{}` (an empty dict, which is
falsy wherever the code tests it). -/
structure Snapshot where
  channels : List ChannelData
  total_sessions : Int
  total_conversions : Int
  total_revenue : Rat
  email_focus : Option ChannelData
  social_focus : Option ChannelData
deriving DecidableEq

def initSnapshot : Snapshot :=
  { channels := []
    total_sessions := 0
    total_conversions := 0
    total_revenue := 0
    email_focus := none
    social_focus := none }

/-- `"email" in channel_lower` for a channel label. -/
def isEmailLabel (c : String) : Bool :=
  containsSub "email".data (lowerStr c).data

/-- `"social" in l or "facebook" in l or "instagram" in l`. -/
def isSocialLabel (c : String) : Bool :=
  containsSub "social".data (lowerStr c).data ||
  containsSub "facebook".data (lowerStr c).data ||
  containsSub "instagram".data (lowerStr c).data

/-- The per-row update of `process_ga4_response`'s loop body applied to a
successfully built `channel_data`: append to `channels`, add to totals,
and run the `if "email" in ... elif "social" in ...` spotlight branch. -/
def snapStep (acc : Snapshot) (cd : ChannelData) : Snapshot :=
  { channels := acc.channels ++ [cd]
    total_sessions := acc.total_sessions + cd.sessions
    total_conversions := acc.total_conversions + cd.conversions
    total_revenue := acc.total_revenue + cd.revenue
    email_focus := if isEmailLabel cd.channel then some cd else acc.email_focus
    social_focus :=
      if isEmailLabel cd.channel then acc.social_focus
      else if isSocialLabel cd.channel then some cd else acc.social_focus }

/-- The row loop of `process_ga4_response`; `none` propagates a raised
`IndexError`. -/
def processRows : List GA4Row → Snapshot → Option Snapshot
  | [], acc => some acc
  | row :: rest, acc =>
    match rowToChannelData row with
    | none => none
    | some cd => processRows rest (snapStep acc cd)

/-- `process_ga4_response` (lines 121-169): returns `.ok none` for the
empty-dict result `{}` (no `"rows"` key), `.error ()` when the loop
raises, and otherwise the populated dict with channels sorted descending
by sessions. -/
def process_ga4_response (raw : RawData) : Except Unit (Option Snapshot) :=
  match raw with
  | none => .ok none
  | some rows =>
    match processRows rows initSnapshot with
    | none => .error ()
    | some s => .ok (some { s with channels := sortDesc (fun cd => cd.sessions) s.channels })

/-- One campaign dict of `process_campaign_response`. -/
structure CampaignRow where
  campaign : String
  sessions : Int
deriving DecidableEq

/-- The sentinel list of `process_campaign_response` line 236:
`["(not set)", "(none)", "unknown", ""]`. -/
def campaignSentinels : List String := ["(not set)", "(none)", "unknown", ""]

/-- The row loop of `process_campaign_response` (lines 231-244): skip rows
whose lowercased name is a sentinel, keep the rest in order; `.error ()`
models the `IndexError` on a present-but-empty dimension list. -/
def collectCampaigns : List GA4Row → Except Unit (List CampaignRow)
  | [] => .ok []
  | row :: rest =>
    match rowLabel row with
    | none => .error ()
    | some name =>
      (collectCampaigns rest).map fun tail =>
        if lowerStr name ∈ campaignSentinels then tail
        else { campaign := name
               sessions := metInt (row.metricValues.getD []) 0 } :: tail

/-- `process_campaign_response` (lines 219-249). -/
def process_campaign_response (raw : RawData) : Except Unit (List CampaignRow) :=
  match raw with
  | none => .ok []
  | some rows =>
    (collectCampaigns rows).map (sortDesc (fun c => c.sessions))

/-- The `previous_by_channel` lookup dict of `calculate_evolution_rates`
(lines 261-263), built from `previous_data.get("channels", [])`. -/
def previous_by_channel (previous : List ChannelData) : List (String × Int) :=
  previous.foldl (fun m ch => dinsert m ch.channel ch.sessions) []

/-- The three-way branch of `calculate_evolution_rates` (lines 271-277). -/
def evoRate (current_sessions previous_sessions : Int) : Rat :=
  if previous_sessions > 0 then
    ((current_sessions : Rat) - (previous_sessions : Rat)) / (previous_sessions : Rat) * 100
  else if current_sessions > 0 then 100
  else 0

/-- `calculate_evolution_rates` (lines 251-279), taking the two
`.get("channels", [])` lists of the current and previous snapshot dicts;
the result models the `evolution_rates` dict. -/
def calculate_evolution_rates (current previous : List ChannelData) :
    List (String × Rat) :=
  current.foldl
    (fun m ch =>
      dinsert m ch.channel
        (evoRate ch.sessions (((previous_by_channel previous).lookup ch.channel).getD 0)))
    []

/-- The nested `data_by_date_channel` dict of
`process_time_series_response`: date → (channel → sessions). -/
abbrev TSMap : Type := List (String × List (String × Int))

/-- `data_by_date_channel.get(date, {}).get(channel, 0)`. -/
def tsGet (m : TSMap) (date channel : String) : Int :=
  (((m.lookup date).getD []).lookup channel).getD 0

/-- One iteration of the row loop of `process_time_series_response`
(lines 186-201): rows with fewer than 2 dimension values are skipped,
otherwise `data[date][channel] = sessions` and `all_channels.add(channel)`.
The Python `all_channels` set is modelled as an insertion-ordered
duplicate-free list; only its membership is specified (set iteration
order is arbitrary in Python). -/
def tsStep (st : TSMap × List String) (row : GA4Row) : TSMap × List String :=
  match row.dimensionValues.getD [] with
  | d0 :: d1 :: _ =>
    let date := d0.getD ""
    let channel := d1.getD "Unknown"
    let sessions := metInt (row.metricValues.getD []) 0
    (dinsert st.1 date (dinsert ((st.1.lookup date).getD []) channel sessions),
     sinsert st.2 channel)
  | _ => st

/-- The output dict of `process_time_series_response`. -/
structure TimeSeries where
  dates : List String
  by_channel : List (String × List Int)
deriving DecidableEq

/-- `process_time_series_response` (lines 171-217); `none` models the
empty-dict `{}` result when the response has no rows key. -/
def process_time_series_response (raw : RawData) : Option TimeSeries :=
  match raw with
  | none => none
  | some rows =>
    let st := rows.foldl tsStep ([], [])
    let sorted_dates := sortAsc (st.1.map Prod.fst)
    some
      { dates := sorted_dates
        by_channel :=
          st.2.map (fun c => (c, sorted_dates.map (fun d => tsGet st.1 d c))) }

/-- A spotlight dict viewed as a metric-name → numeric-value mapping, as
accessed by `get_focus_evolution` (only numeric fields are ever looked
up). -/
abbrev FocusDict : Type := List (String × Rat)

/-- `get_focus_evolution` (lines 412-420), the renderer's focus-section
evolution helper.  `previous = none` models both `None` and a falsy
(empty) previous dict; the inner `if prev_val == 0` branch is kept
exactly as in the source. -/
def get_focus_evolution (current : FocusDict) (previous : Option FocusDict)
    (metric : String) : Rat :=
  match previous with
  | none => 0
  | some p =>
    if p = [] then 0
    else if (p.lookup metric) = none then 0
    else if (p.lookup metric) = some 0 then 0
    else
      let curr_val := (current.lookup metric).getD 0
      let prev_val := (p.lookup metric).getD 0
      if prev_val = 0 then (if curr_val > 0 then 100 else 0)
      else ((curr_val - prev_val) / prev_val) * 100

/-- `get_focus_evolution` with its dead `prev_val == 0` branch removed:
after the guards the division always happens. -/
def get_focus_evolution_direct (current : FocusDict) (previous : Option FocusDict)
    (metric : String) : Rat :=
  match previous with
  | none => 0
  | some p =>
    if p = [] then 0
    else if (p.lookup metric) = none then 0
    else if (p.lookup metric) = some 0 then 0
    else
      let curr_val := (current.lookup metric).getD 0
      let prev_val := (p.lookup metric).getD 0
      ((curr_val - prev_val) / prev_val) * 100

/-- The evolution value rendered next to the executive-summary total
sessions (line 657): `((data['total_sessions'] - prev_data.get('total_sessions', 0))
/ prev_data.get('total_sessions', 1)) * 100 if prev_data and
prev_data.get('total_sessions', 0) > 0 else 0`.  Under the guard the
`get` defaults collapse to the present field. -/
def exec_sessions_evolution (data : Snapshot) (prev_data : Option Snapshot) : Rat :=
  match prev_data with
  | some p =>
    if p.total_sessions > 0 then
      ((data.total_sessions : Rat) - (p.total_sessions : Rat)) / (p.total_sessions : Rat) * 100
    else 0
  | none => 0

/-- The evolution value rendered next to the executive-summary total
conversions (line 658), same shape as `exec_sessions_evolution`. -/
def exec_conversions_evolution (data : Snapshot) (prev_data : Option Snapshot) : Rat :=
  match prev_data with
  | some p =>
    if p.total_conversions > 0 then
      ((data.total_conversions : Rat) - (p.total_conversions : Rat)) / (p.total_conversions : Rat) * 100
    else 0
  | none => 0

/-- For the lazy group `(.+?)` of `re.sub(r'\*\*(.+?)\*\*', ...)`: given the
characters after an opening `**`, find the shortest non-empty newline-free
content followed by a closing `**`; returns the content and the characters
after the closing marker. -/
def findClose : List Char → Option (List Char × List Char)
  | [] => none
  | c :: rest =>
    if c = '\n' then none
    else
      match rest with
      | '*' :: '*' :: rs => some ([c], rs)
      | _ => (findClose rest).map (fun p => (c :: p.1, p.2))

/-- `re.sub(r'\*\*(.+?)\*\*', r'<strong>\1</strong>', html)`: scan left to
right; at an unmatched start position advance one character.  The `fuel`
argument (always called with the input length, which bounds the recursion)
only makes the recursion structural; it is never exhausted. -/
def boldSubAux : Nat → List Char → List Char
  | 0, cs => cs
  | _ + 1, [] => []
  | fuel + 1, '*' :: '*' :: rest =>
    match findClose rest with
    | some (content, rs) =>
      "<strong>".data ++ content ++ "</strong>".data ++ boldSubAux fuel rs
    | none => '*' :: boldSubAux fuel ('*' :: rest)
  | fuel + 1, c :: rest => c :: boldSubAux fuel rest

def boldSub (cs : List Char) : List Char := boldSubAux cs.length cs

/-- Python `html.split('\n')` on character lists. -/
def splitNl : List Char → List (List Char)
  | [] => [[]]
  | c :: rest =>
    let r := splitNl rest
    if c = '\n' then [] :: r
    else
      match r with
      | [] => [[c]]
      | hd :: tl => (c :: hd) :: tl

/-- Python `line.strip()` (whitespace on both ends), on character lists. -/
def pyStrip (cs : List Char) : List Char :=
  ((cs.dropWhile Char.isWhitespace).reverse.dropWhile Char.isWhitespace).reverse

def h4Of (content : List Char) : List Char :=
  "<h4 style=\"color: #2ea3f2; margin: 15px 0 10px 0; font-weight: 600;\">".data
    ++ content ++ "</h4>".data

def h3Of (content : List Char) : List Char :=
  "<h3 style=\"color: #1d1973; margin: 15px 0 10px 0; font-weight: 600;\">".data
    ++ content ++ "</h3>".data

def ulOpenLine : List Char := "<ul style=\"margin: 10px 0; padding-left: 20px;\">".data

def ulCloseLine : List Char := "</ul>".data

def liOf (content : List Char) : List Char :=
  "<li style=\"margin: 5px 0;\">".data ++ content ++ "</li>".data

def pOf (line : List Char) : List Char :=
  "<p style=\"margin: 10px 0;\">".data ++ line ++ "</p>".data

def brLine : List Char := "<br/>".data

/-- The line loop of `markdown_to_html` (lines 814-849), with the explicit
`in_list` flag; the final `if in_list` close is the `[]` case. -/
def convLines : List (List Char) → Bool → List (List Char)
  | [], in_list => if in_list then [ulCloseLine] else []
  | line :: rest, in_list =>
    let s := pyStrip line
    if "### ".data.isPrefixOf s then
      (if in_list then [ulCloseLine] else []) ++ [h4Of (s.drop 4)] ++ convLines rest false
    else if "## ".data.isPrefixOf s then
      (if in_list then [ulCloseLine] else []) ++ [h3Of (s.drop 3)] ++ convLines rest false
    else if "* ".data.isPrefixOf s || "- ".data.isPrefixOf s then
      (if in_list then [] else [ulOpenLine]) ++ [liOf (s.drop 2)] ++ convLines rest true
    else
      (if in_list then [ulCloseLine] else []) ++
        [if s ≠ [] then pOf line else brLine] ++ convLines rest false

/-- `markdown_to_html` (lines 794-851). -/
def markdown_to_html (text : String) : String :=
  if text = "" then ""
  else
    String.mk (List.intercalate ['\n'] (convLines (splitNl (boldSub text.data)) false))

/-- The fixed `RECIPIENTS` list (line 39). -/
def RECIPIENTS : List String :=
  ["mjacobson@avisia.fr", "mnunez@avisia.fr", "adejullien@avisia.fr",
   "btran@avisia.fr", "gbertin@avisia.fr"]

/-- The fallback string returned by `generate_insights_with_gemini` when
the narrative service fails (line 868). -/
def insightsFallback : String :=
  "AI insights generation unavailable. Please review the data manually."

/-- Observable side effects of `run_monthly_analysis` toward the
narrative, storage and mail collaborators.  A `mailAttempt` records one
iteration of the per-recipient delivery loop together with whether the
attempt succeeded (`false` = the absorbed, logged exception). -/
inductive Effect where
  | narrativeCall : Effect
  | storageWrite : Bool → Effect
  | mailAttempt : String → Bool → Effect
deriving DecidableEq

/-- The recipient of a mail attempt, if the effect is one. -/
def mailRecipient : Effect → Option String
  | .mailAttempt r _ => some r
  | _ => none

/-- The per-recipient delivery loop of `run_monthly_analysis`
(lines 1015-1067): each iteration renders and sends inside `try`, the
`except` clause logs the error, and the loop proceeds to the next
recipient in either case. -/
def deliveryLoop (attempt : String → Except String Unit) : List String → List Effect
  | [] => []
  | r :: rest =>
    (match attempt r with
     | .ok _ => Effect.mailAttempt r true
     | .error _ => Effect.mailAttempt r false) :: deliveryLoop attempt rest

/-- The collaborator outcomes an invocation of `run_monthly_analysis`
runs against: the three GA4 responses, the narrative-service result
(`none` = failure, recovered with `insightsFallback`), the storage-write
outcome, and the per-recipient render+send outcome (`.error` = the
exception absorbed by the loop). -/
structure OrchInputs where
  currentResp : RawData
  campaignResp : RawData
  prevResp : RawData
  narrative : Option String
  storageOk : Bool
  sendOutcome : String → Except String Unit

/-- The success dict returned at line 1070 (status/period strings are
constants and are not modelled). -/
structure RunSummary where
  total_sessions : Int
  recipients : List String
deriving DecidableEq

/-- `run_monthly_analysis` (lines 890-1079), as a result plus the trace
of collaborator effects.  `.ok none` is the early `return` (line 933)
when the processed current snapshot is falsy or has a falsy channel
list; `.error ()` is an uncaught exception (re-raised at line 1079).
Date arithmetic and report HTML are not modelled; the narrative prompt,
storage payload and per-recipient reports are built from pure data
already modelled above. -/
def run_monthly_analysis (inp : OrchInputs) : Except Unit (Option RunSummary) × List Effect :=
  match process_ga4_response inp.currentResp with
  | .error () => (.error (), [])
  | .ok none => (.ok none, [])
  | .ok (some snap) =>
    if snap.channels = [] then (.ok none, [])
    else
      match process_campaign_response inp.campaignResp with
      | .error () => (.error (), [])
      | .ok _campaigns =>
        match process_ga4_response inp.prevResp with
        | .error () => (.error (), [])
        | .ok prevSnap =>
          let _evolution :=
            calculate_evolution_rates snap.channels
              ((prevSnap.map (fun s => s.channels)).getD [])
          let _insights := inp.narrative.getD insightsFallback
          (.ok (some { total_sessions := snap.total_sessions, recipients := RECIPIENTS }),
           Effect.narrativeCall :: Effect.storageWrite inp.storageOk ::
             deliveryLoop inp.sendOutcome RECIPIENTS)

/-- The `channel_data` dicts of a row list in source row order
(specification side, for stating spotlight and ordering properties). -/
def rowChannelDatas (rows : List GA4Row) : List ChannelData :=
  rows.filterMap rowToChannelData

/-- Fold form of `processRows` on already-built channel dicts. -/
def snapFold (cds : List ChannelData) (acc : Snapshot) : Snapshot :=
  cds.foldl snapStep acc

/-- Specification side: the (date, channel, sessions) triple a time-series
row contributes, `none` when the row has fewer than 2 dimension values
and is skipped. -/
def tsEntry (r : GA4Row) : Option (String × String × Int) :=
  match r.dimensionValues.getD [] with
  | d0 :: d1 :: _ =>
    some (d0.getD "", d1.getD "Unknown", metInt (r.metricValues.getD []) 0)
  | _ => none

/-- Specification side: the kept (date, channel, sessions) triples of a
time-series row list, in source order. -/
def tsEntries (rows : List GA4Row) : List (String × String × Int) :=
  rows.filterMap tsEntry

/-- `data_by_date_channel.get(date, {}).get(channel, ...)` as an optional
lookup (before the final default 0). -/
def tsFind (m : TSMap) (date channel : String) : Option Int :=
  ((m.lookup date).getD []).lookup channel

/-- Specification side: the value of the last kept entry for a given
(date, channel) pair, `none` when no entry has that pair. -/
def specLastVal (entries : List (String × String × Int)) (d c : String) : Option Int :=
  entries.foldl (fun acc e => if e.1 = d ∧ e.2.1 = c then some e.2.2 else acc) none

/-- Specification side: the campaign rows kept by the ranker's filter
(lowercased name not a sentinel), in source order, duplicates
preserved. -/
def keptCampaigns (rows : List GA4Row) : List CampaignRow :=
  rows.filterMap fun r =>
    match rowLabel r with
    | some name =>
      if lowerStr name ∈ campaignSentinels then none
      else some { campaign := name, sessions := metInt (r.metricValues.getD []) 0 }
    | none => none

/-- Specification side: line classification of the narrative formatter in
the fixed order heading-3, heading-2, bullet; a bullet line is one that
matches neither heading pattern and starts (stripped) with `* ` or
`- `. -/
def isBulletLine (line : List Char) : Bool :=
  let s := pyStrip line
  !("### ".data.isPrefixOf s) && !("## ".data.isPrefixOf s) &&
    ("* ".data.isPrefixOf s || "- ".data.isPrefixOf s)

/-- Specification side: rendering of a non-bullet line (first matching
pattern wins: heading-3, heading-2, paragraph / break fallback). -/
def renderNonBullet (line : List Char) : List Char :=
  let s := pyStrip line
  if "### ".data.isPrefixOf s then h4Of (s.drop 4)
  else if "## ".data.isPrefixOf s then h3Of (s.drop 3)
  else if s ≠ [] then pOf line else brLine

/-- Specification side: rendering of one bullet line as a list item. -/
def liRender (line : List Char) : List Char :=
  liOf ((pyStrip line).drop 2)

/-- Specification side of the narrative formatter's grouping rule: every
maximal run of consecutive bullet lines becomes exactly one enclosing
list, closed on the first following non-bullet line or at end of input;
other lines are rendered individually. -/
def specGroup : List (List Char) → List (List Char)
  | [] => []
  | line :: rest =>
    if h : isBulletLine line then
      ulOpenLine ::
        (((line :: rest).takeWhile isBulletLine).map liRender ++
          ulCloseLine :: specGroup ((line :: rest).dropWhile isBulletLine))
    else
      renderNonBullet line :: specGroup rest
termination_by l => l.length
decreasing_by
  · calc (List.dropWhile isBulletLine (hd :: tl)).length
        = (List.dropWhile isBulletLine tl).length := by simp [List.dropWhile, h]
      _ ≤ tl.length := (List.dropWhile_sublist isBulletLine).length_le
      _ < (hd :: tl).length := by simp
  · simp

/-- Decidable equality for `Except`, used to evaluate concrete pipeline
results. -/
instance {e a : Type} [DecidableEq e] [DecidableEq a] : DecidableEq (Except e a) :=
  fun x y =>
    match x, y with
    | .error u, .error v =>
      if h : u = v then .isTrue (congrArg Except.error h)
      else .isFalse (fun hc => h (Except.error.inj hc))
    | .ok u, .ok v =>
      if h : u = v then .isTrue (congrArg Except.ok h)
      else .isFalse (fun hc => h (Except.ok.inj hc))
    | .error _, .ok _ => .isFalse (fun hc => Except.noConfusion hc)
    | .ok _, .error _ => .isFalse (fun hc => Except.noConfusion hc)

/-- Small concrete channel record used by concrete instances below. -/
def cdOf (name : String) : ChannelData :=
  { channel := name, sessions := 0, conversions := 0, revenue := 0,
    engagement_rate := 0, avg_session_duration := 0 }

theorem lookup_map_overwrite {β : Type} (m : List (String × β)) (k k' : String) (v : β) :
    (m.map (fun p => if p.1 = k then (k, v) else p)).lookup k' =
      if k' = k then (m.lookup k).map (fun _ => v) else m.lookup k' := by
  induction m with
  | nil => simp [List.lookup]
  | cons p rest ih =>
    obtain ⟨a, b⟩ := p
    by_cases hak : a = k
    · subst hak
      by_cases hk : k' = a
      · subst hk
        simp [List.lookup_cons]
      · have h1 : (k' == a) = false := by simp [hk]
        simp [List.lookup_cons, h1, hk, ih]
    · have hka : ¬(k = a) := fun h => hak h.symm
      by_cases hk : k' = a
      · subst hk
        simp [List.lookup_cons, hak]
      · have h1 : (k' == a) = false := by simp [hk]
        simp only [List.map_cons, if_neg hak, List.lookup_cons, h1]
        rw [ih]
        by_cases hkk : k' = k
        · subst hkk
          have h2 : (k' == a) = false := by simp [hk]
          simp [List.lookup_cons, h2]
        · simp [hkk]

theorem lookup_dinsert {β : Type} (m : List (String × β)) (k k' : String) (v : β) :
    (dinsert m k v).lookup k' = if k' = k then some v else m.lookup k' := by
  unfold dinsert
  split
  · rename_i hs
    rw [lookup_map_overwrite]
    by_cases hk : k' = k
    · subst hk
      obtain ⟨b, hb⟩ := Option.isSome_iff_exists.mp hs
      simp [hb]
    · simp [hk]
  · rename_i hs
    rw [List.lookup_append]
    by_cases hk : k' = k
    · subst hk
      have h0 : m.lookup k' = none := Option.not_isSome_iff_eq_none.mp hs
      simp [h0, List.lookup]
    · have h1 : (k' == k) = false := by simp [hk]
      simp [List.lookup, h1, hk]

theorem map_fst_dinsert {β : Type} (m : List (String × β)) (k : String) (v : β) :
    (dinsert m k v).map Prod.fst =
      if (m.lookup k).isSome then m.map Prod.fst else m.map Prod.fst ++ [k] := by
  unfold dinsert
  split
  · rw [List.map_map]
    apply List.map_congr_left
    intro p _
    by_cases hp : p.1 = k
    · simp [hp]
    · simp [hp]
  · simp

theorem mem_keys_iff_lookup_isSome {β : Type} (m : List (String × β)) (k : String) :
    k ∈ m.map Prod.fst ↔ (m.lookup k).isSome := by
  rw [List.lookup_isSome_iff]
  constructor
  · intro h
    obtain ⟨p, hp, he⟩ := List.mem_map.mp h
    exact ⟨p, hp, by simp [he]⟩
  · rintro ⟨p, hp, he⟩
    exact List.mem_map.mpr ⟨p, hp, (beq_iff_eq.mp he).symm⟩

theorem mem_keys_dinsert {β : Type} (m : List (String × β)) (k a : String) (v : β) :
    a ∈ (dinsert m k v).map Prod.fst ↔ a = k ∨ a ∈ m.map Prod.fst := by
  rw [map_fst_dinsert]
  split
  · rename_i hs
    constructor
    · exact fun h => Or.inr h
    · rintro (rfl | h)
      · exact (mem_keys_iff_lookup_isSome m a).mpr hs
      · exact h
  · simp [or_comm]

theorem nodup_keys_dinsert {β : Type} (m : List (String × β)) (k : String) (v : β)
    (h : (m.map Prod.fst).Nodup) : ((dinsert m k v).map Prod.fst).Nodup := by
  rw [map_fst_dinsert]
  split
  · exact h
  · rename_i hs
    have hk : k ∉ m.map Prod.fst := fun hm =>
      hs ((mem_keys_iff_lookup_isSome m k).mp hm)
    simp [List.nodup_append, h, hk]

theorem lookup_foldl_dinsert {γ β : Type} (key : γ → String) (f : γ → β) :
    ∀ (l : List γ) (m : List (String × β)) (s : String),
      ((l.foldl (fun acc x => dinsert acc (key x) (f x)) m).lookup s) =
        ((l.reverse.find? (fun x => key x == s)).map f).or (m.lookup s) := by
  intro l
  induction l with
  | nil => intro m s; simp
  | cons x rest ih =>
    intro m s
    rw [List.foldl_cons, ih, List.reverse_cons, List.find?_append]
    by_cases hx : key x = s
    · have hb : (key x == s) = true := by simp [hx]
      cases hfind : rest.reverse.find? (fun y => key y == s) with
      | some y => simp [hfind]
      | none =>
        simp only [hfind, List.find?_cons, hb, Option.or_none, Option.none_or]
        rw [lookup_dinsert]
        simp [hx.symm]
    · have hb : (key x == s) = false := by simp [hx]
      cases hfind : rest.reverse.find? (fun y => key y == s) with
      | some y => simp [hfind]
      | none =>
        simp only [hfind, List.find?_cons, hb, Option.none_or]
        rw [lookup_dinsert]
        have : ¬(s = key x) := fun h => hx h.symm
        simp [this]

theorem find?_reverse_nodup {γ : Type} (key : γ → String) :
    ∀ (l : List γ) (s : String), ((l.map key).Nodup) →
      l.reverse.find? (fun x => key x == s) = l.find? (fun x => key x == s) := by
  intro l
  induction l with
  | nil => intro s _; simp
  | cons x rest ih =>
    intro s hn
    rw [List.reverse_cons, List.find?_append, List.find?_cons]
    simp only [List.map_cons, List.nodup_cons] at hn
    by_cases hx : key x = s
    · have hb : (key x == s) = true := by simp [hx]
      have hrest : rest.find? (fun y => key y == s) = none := by
        rw [List.find?_eq_none]
        intro y hy hpy
        have : key y = s := by simpa using hpy
        exact hn.1 (List.mem_map.mpr ⟨y, hy, this.trans hx.symm⟩)
      have hrrev : rest.reverse.find? (fun y => key y == s) = none := by
        rw [List.find?_eq_none]
        intro y hy hpy
        have : key y = s := by simpa using hpy
        exact hn.1 (List.mem_map.mpr ⟨y, List.mem_reverse.mp hy, this.trans hx.symm⟩)
      simp [hrrev, hb]
    · have hb : (key x == s) = false := by simp [hx]
      simp [hb, ih s hn.2]

theorem find?_key_of_mem_nodup {γ : Type} (key : γ → String) :
    ∀ (l : List γ) (x : γ), ((l.map key).Nodup) → x ∈ l →
      l.find? (fun y => key y == key x) = some x := by
  intro l
  induction l with
  | nil => intro x _ hx; simp at hx
  | cons a rest ih =>
    intro x hn hx
    simp only [List.map_cons, List.nodup_cons] at hn
    rcases List.mem_cons.mp hx with rfl | hx'
    · simp [List.find?_cons]
    · have hne : ¬(key a = key x) := fun h =>
        hn.1 (List.mem_map.mpr ⟨x, hx', h.symm⟩)
      have hb : (key a == key x) = false := by simp [hne]
      simp [List.find?_cons, hb, ih x hn.2 hx']

theorem mem_insertDesc {α : Type} (key : α → Int) (x a : α) :
    ∀ l : List α, a ∈ insertDesc key x l ↔ a = x ∨ a ∈ l := by
  intro l
  induction l with
  | nil => simp [insertDesc]
  | cons y ys ih =>
    unfold insertDesc
    split <;> simp only [List.mem_cons, ih] <;> tauto

theorem pairwise_insertDesc {α : Type} (key : α → Int) (x : α) :
    ∀ l : List α, l.Pairwise (fun a b => key b ≤ key a) →
      (insertDesc key x l).Pairwise (fun a b => key b ≤ key a) := by
  intro l
  induction l with
  | nil => intro _; simp [insertDesc]
  | cons y ys ih =>
    intro h
    rw [List.pairwise_cons] at h
    unfold insertDesc
    split
    · rename_i hlt
      rw [List.pairwise_cons]
      constructor
      · intro b hb
        rcases (mem_insertDesc key x b ys).mp hb with rfl | hb'
        · exact le_of_lt hlt
        · exact h.1 b hb'
      · exact ih h.2
    · rename_i hge
      rw [List.pairwise_cons]
      constructor
      · intro b hb
        rcases List.mem_cons.mp hb with rfl | hb'
        · exact not_lt.mp hge
        · exact le_trans (h.1 b hb') (not_lt.mp hge)
      · exact List.pairwise_cons.mpr h

theorem filter_insertDesc {α : Type} (key : α → Int) (x : α) (k : Int) :
    ∀ l : List α, l.Pairwise (fun a b => key b ≤ key a) →
      (insertDesc key x l).filter (fun a => key a == k) =
        if key x = k then x :: l.filter (fun a => key a == k)
        else l.filter (fun a => key a == k) := by
  intro l
  induction l with
  | nil =>
    intro _
    by_cases hx : key x = k
    · simp [insertDesc, hx]
    · simp [insertDesc, hx]
  | cons y ys ih =>
    intro h
    rw [List.pairwise_cons] at h
    unfold insertDesc
    split
    · rename_i hlt
      by_cases hx : key x = k
      · have hy : ¬(key y = k) := by
          intro he
          rw [← hx] at he
          exact absurd (he ▸ hlt) (lt_irrefl (key x))
        have hyb : (key y == k) = false := by simp [hy]
        simp [List.filter_cons, hyb, ih h.2, hx, hy]
      · have hxb : (key x == k) = false := by simp [hx]
        simp only [List.filter_cons, ih h.2, if_neg hx]
    · by_cases hx : key x = k
      · have hxb : (key x == k) = true := by simp [hx]
        simp [List.filter_cons, hxb, hx]
      · have hxb : (key x == k) = false := by simp [hx]
        simp [List.filter_cons, hxb, hx]

theorem pairwise_sortDesc {α : Type} (key : α → Int) (l : List α) :
    (sortDesc key l).Pairwise (fun a b => key b ≤ key a) := by
  induction l with
  | nil => simp [sortDesc]
  | cons x xs ih => exact pairwise_insertDesc key x (sortDesc key xs) ih

theorem filter_sortDesc {α : Type} (key : α → Int) (k : Int) (l : List α) :
    (sortDesc key l).filter (fun a => key a == k) = l.filter (fun a => key a == k) := by
  induction l with
  | nil => simp [sortDesc]
  | cons x xs ih =>
    have hstep : sortDesc key (x :: xs) = insertDesc key x (sortDesc key xs) := rfl
    rw [hstep, filter_insertDesc key x k (sortDesc key xs) (pairwise_sortDesc key xs), ih]
    by_cases hx : key x = k
    · have hxb : (key x == k) = true := by simp [hx]
      simp [List.filter_cons, hxb, hx]
    · have hxb : (key x == k) = false := by simp [hx]
      simp [List.filter_cons, hxb, hx]

theorem lexLe_total : ∀ a b : List Char, lexLe a b = true ∨ lexLe b a = true := by
  intro a
  induction a with
  | nil => intro b; left; rfl
  | cons x xs ih =>
    intro b
    cases b with
    | nil => right; rfl
    | cons y ys =>
      rcases lt_trichotomy x y with hlt | heq | hgt
      · left; simp [lexLe, hlt]
      · subst heq
        rcases ih ys with h | h
        · left; simp [lexLe, h]
        · right; simp [lexLe, h]
      · right; simp [lexLe, hgt]

theorem lexLe_trans : ∀ a b c : List Char,
    lexLe a b = true → lexLe b c = true → lexLe a c = true := by
  intro a
  induction a with
  | nil => intro b c _ _; rfl
  | cons x xs ih =>
    intro b c hab hbc
    cases b with
    | nil => simp [lexLe] at hab
    | cons y ys =>
      cases c with
      | nil => simp [lexLe] at hbc
      | cons z zs =>
        by_cases hxy : x < y
        · by_cases hyz : y < z
          · simp [lexLe, lt_trans hxy hyz]
          · by_cases heyz : y = z
            · subst heyz; simp [lexLe, hxy]
            · simp [lexLe, hyz, heyz] at hbc
        · by_cases hexy : x = y
          · subst hexy
            by_cases hyz : x < z
            · simp [lexLe, hyz]
            · by_cases heyz : x = z
              · subst heyz
                simp only [lexLe, lt_irrefl, if_false, if_pos rfl] at hab hbc ⊢
                exact ih ys zs hab hbc
              · simp [lexLe, hyz, heyz] at hbc
          · simp [lexLe, hxy, hexy] at hab

theorem mem_insertAsc (x a : String) :
    ∀ l : List String, a ∈ insertAsc x l ↔ a = x ∨ a ∈ l := by
  intro l
  induction l with
  | nil => simp [insertAsc]
  | cons y ys ih =>
    unfold insertAsc
    split <;> simp only [List.mem_cons, ih] <;> tauto

theorem perm_insertAsc (x : String) :
    ∀ l : List String, (insertAsc x l).Perm (x :: l) := by
  intro l
  induction l with
  | nil => simp [insertAsc]
  | cons y ys ih =>
    unfold insertAsc
    split
    · exact List.Perm.refl _
    · exact (List.Perm.cons y ih).trans (List.Perm.swap x y ys)

theorem pairwise_insertAsc (x : String) :
    ∀ l : List String, l.Pairwise (fun a b => lexLe a.data b.data = true) →
      (insertAsc x l).Pairwise (fun a b => lexLe a.data b.data = true) := by
  intro l
  induction l with
  | nil => intro _; simp [insertAsc]
  | cons y ys ih =>
    intro h
    rw [List.pairwise_cons] at h
    unfold insertAsc
    split
    · rename_i hle
      rw [List.pairwise_cons]
      constructor
      · intro b hb
        rcases List.mem_cons.mp hb with rfl | hb'
        · exact hle
        · exact lexLe_trans x.data y.data b.data hle (h.1 b hb')
      · exact List.pairwise_cons.mpr h
    · rename_i hgt
      rw [List.pairwise_cons]
      constructor
      · intro b hb
        rcases (mem_insertAsc x b ys).mp hb with heq | hb'
        · rw [heq]
          rcases lexLe_total x.data y.data with hx | hy
          · exact absurd hx hgt
          · exact hy
        · exact h.1 b hb'
      · exact ih h.2

theorem mem_sortAsc (a : String) (l : List String) : a ∈ sortAsc l ↔ a ∈ l := by
  induction l with
  | nil => simp [sortAsc]
  | cons x xs ih =>
    have hstep : sortAsc (x :: xs) = insertAsc x (sortAsc xs) := rfl
    rw [hstep, mem_insertAsc, ih]
    simp

theorem pairwise_sortAsc (l : List String) :
    (sortAsc l).Pairwise (fun a b => lexLe a.data b.data = true) := by
  induction l with
  | nil => simp [sortAsc]
  | cons x xs ih => exact pairwise_insertAsc x (sortAsc xs) ih

theorem perm_sortAsc (l : List String) : (sortAsc l).Perm l := by
  induction l with
  | nil => simp [sortAsc]
  | cons x xs ih =>
    have hstep : sortAsc (x :: xs) = insertAsc x (sortAsc xs) := rfl
    rw [hstep]
    exact (perm_insertAsc x (sortAsc xs)).trans (List.Perm.cons x ih)

theorem nodup_sortAsc (l : List String) (h : l.Nodup) : (sortAsc l).Nodup :=
  (perm_sortAsc l).symm.nodup h

theorem specLastVal_aux (d c : String) :
    ∀ (es : List (String × String × Int)) (acc : Option Int),
      es.foldl (fun a e => if e.1 = d ∧ e.2.1 = c then some e.2.2 else a) acc =
        (specLastVal es d c).or acc := by
  intro es
  induction es with
  | nil => intro acc; simp [specLastVal]
  | cons e es ih =>
    intro acc
    rw [List.foldl_cons]
    rw [ih]
    have hcons : specLastVal (e :: es) d c =
        (specLastVal es d c).or (if e.1 = d ∧ e.2.1 = c then some e.2.2 else none) := by
      unfold specLastVal
      rw [List.foldl_cons, ih]
      rfl
    rw [hcons, Option.or_assoc]
    congr 1
    by_cases he : e.1 = d ∧ e.2.1 = c
    · simp [he]
    · simp [he]

theorem specLastVal_cons (e : String × String × Int) (es : List (String × String × Int))
    (d c : String) :
    specLastVal (e :: es) d c =
      (specLastVal es d c).or (if e.1 = d ∧ e.2.1 = c then some e.2.2 else none) := by
  unfold specLastVal
  rw [List.foldl_cons, specLastVal_aux]
  rfl

theorem specLastVal_eq_none (d c : String) (es : List (String × String × Int))
    (h : ∀ e ∈ es, ¬(e.1 = d ∧ e.2.1 = c)) : specLastVal es d c = none := by
  induction es with
  | nil => simp [specLastVal]
  | cons e es ih =>
    rw [specLastVal_cons, ih (fun f hf => h f (List.mem_cons_of_mem e hf))]
    simp [h e (List.mem_cons_self e es)]

theorem specLastVal_eq_of_mem (d c : String) (es : List (String × String × Int))
    (hn : es.Pairwise (fun e f => ¬(e.1 = f.1 ∧ e.2.1 = f.2.1)))
    (e : String × String × Int) (he : e ∈ es) (hd : e.1 = d) (hc : e.2.1 = c) :
    specLastVal es d c = some e.2.2 := by
  induction es with
  | nil => simp at he
  | cons f es ih =>
    rw [List.pairwise_cons] at hn
    rw [specLastVal_cons]
    rcases List.mem_cons.mp he with rfl | he'
    · have hnone : specLastVal es d c = none := by
        apply specLastVal_eq_none
        intro g hg hgdc
        exact hn.1 g hg ⟨hd.trans hgdc.1.symm, hc.trans hgdc.2.symm⟩
      rw [hnone]
      simp [hd, hc]
    · rw [ih hn.2 he']
      simp

theorem tsFind_tsStep (st : TSMap × List String) (row : GA4Row) (d c : String) :
    tsFind (tsStep st row).1 d c =
      match tsEntry row with
      | some e => if e.1 = d ∧ e.2.1 = c then some e.2.2 else tsFind st.1 d c
      | none => tsFind st.1 d c := by
  unfold tsStep tsEntry
  cases hdims : row.dimensionValues.getD [] with
  | nil => simp
  | cons d0 t =>
    cases t with
    | nil => simp
    | cons d1 drest =>
      simp only
      unfold tsFind
      rw [lookup_dinsert]
      by_cases hd : d = d0.getD ""
      · rw [if_pos hd]
        rw [Option.getD_some]
        rw [lookup_dinsert]
        by_cases hc : c = d1.getD "Unknown"
        · rw [if_pos hc]
          have : (d0.getD "" = d ∧ d1.getD "Unknown" = c) := ⟨hd.symm, hc.symm⟩
          simp [this]
        · rw [if_neg hc]
          have hng : ¬(d0.getD "" = d ∧ d1.getD "Unknown" = c) :=
            fun hcon => hc hcon.2.symm
          rw [hd]
          have hcc : ¬(d1.getD "Unknown" = c) := fun h => hc h.symm
          simp [hcc]
      · rw [if_neg hd]
        have : ¬(d0.getD "" = d ∧ d1.getD "Unknown" = c) :=
          fun hcon => hd hcon.1.symm
        simp [this]

theorem tsFind_foldl (rows : List GA4Row) :
    ∀ (st : TSMap × List String) (d c : String),
      tsFind ((rows.foldl tsStep st).1) d c =
        (specLastVal (tsEntries rows) d c).or (tsFind st.1 d c) := by
  induction rows with
  | nil => intro st d c; simp [tsEntries, specLastVal]
  | cons row rest ih =>
    intro st d c
    rw [List.foldl_cons, ih]
    have hstep := tsFind_tsStep st row d c
    cases hrow : tsEntry row with
    | none =>
      rw [hrow] at hstep
      have hent : tsEntries (row :: rest) = tsEntries rest := by
        unfold tsEntries
        rw [List.filterMap_cons, hrow]
      rw [hstep, hent]
    | some e =>
      rw [hrow] at hstep
      have hent : tsEntries (row :: rest) = e :: tsEntries rest := by
        unfold tsEntries
        rw [List.filterMap_cons, hrow]
      rw [hstep, hent, specLastVal_cons, Option.or_assoc]
      congr 1
      by_cases he : e.1 = d ∧ e.2.1 = c
      · simp [he]
      · simp [he]

theorem mem_sinsert (l : List String) (x a : String) :
    a ∈ sinsert l x ↔ a = x ∨ a ∈ l := by
  unfold sinsert
  split
  · rename_i hx
    constructor
    · exact fun h => Or.inr h
    · rintro (rfl | h)
      · exact hx
      · exact h
  · simp [or_comm]

theorem nodup_sinsert (l : List String) (x : String) (h : l.Nodup) :
    (sinsert l x).Nodup := by
  unfold sinsert
  split
  · exact h
  · rename_i hx
    simp [List.nodup_append, h, hx]

theorem tsStep_chans (st : TSMap × List String) (row : GA4Row) (c : String) :
    c ∈ (tsStep st row).2 ↔
      (match tsEntry row with
       | some e => c = e.2.1 ∨ c ∈ st.2
       | none => c ∈ st.2) := by
  unfold tsStep tsEntry
  cases hdims : row.dimensionValues.getD [] with
  | nil => simp
  | cons d0 t =>
    cases t with
    | nil => simp
    | cons d1 drest => simp [mem_sinsert]

theorem tsStep_keys (st : TSMap × List String) (row : GA4Row) (d : String) :
    d ∈ (tsStep st row).1.map Prod.fst ↔
      (match tsEntry row with
       | some e => d = e.1 ∨ d ∈ st.1.map Prod.fst
       | none => d ∈ st.1.map Prod.fst) := by
  unfold tsStep tsEntry
  cases hdims : row.dimensionValues.getD [] with
  | nil => simp
  | cons d0 t =>
    cases t with
    | nil => simp
    | cons d1 drest => simp only [mem_keys_dinsert]

theorem chans_foldl (rows : List GA4Row) :
    ∀ (st : TSMap × List String) (c : String),
      c ∈ (rows.foldl tsStep st).2 ↔
        (∃ e ∈ tsEntries rows, e.2.1 = c) ∨ c ∈ st.2 := by
  induction rows with
  | nil => intro st c; simp [tsEntries]
  | cons row rest ih =>
    intro st c
    rw [List.foldl_cons, ih]
    have hstep := tsStep_chans st row c
    cases hrow : tsEntry row with
    | none =>
      rw [hrow] at hstep
      have hent : tsEntries (row :: rest) = tsEntries rest := by
        unfold tsEntries
        rw [List.filterMap_cons, hrow]
      rw [hent, hstep]
    | some e =>
      rw [hrow] at hstep
      have hent : tsEntries (row :: rest) = e :: tsEntries rest := by
        unfold tsEntries
        rw [List.filterMap_cons, hrow]
      rw [hent, hstep]
      simp only [List.mem_cons]
      constructor
      · rintro (⟨f, hf, hfc⟩ | (rfl | hst))
        · exact Or.inl ⟨f, Or.inr hf, hfc⟩
        · exact Or.inl ⟨e, Or.inl rfl, rfl⟩
        · exact Or.inr hst
      · rintro (⟨f, (rfl | hf), hfc⟩ | hst)
        · exact Or.inr (Or.inl hfc.symm)
        · exact Or.inl ⟨f, hf, hfc⟩
        · exact Or.inr (Or.inr hst)

theorem keys_foldl (rows : List GA4Row) :
    ∀ (st : TSMap × List String) (d : String),
      d ∈ (rows.foldl tsStep st).1.map Prod.fst ↔
        (∃ e ∈ tsEntries rows, e.1 = d) ∨ d ∈ st.1.map Prod.fst := by
  induction rows with
  | nil => intro st d; simp [tsEntries]
  | cons row rest ih =>
    intro st d
    rw [List.foldl_cons, ih]
    have hstep := tsStep_keys st row d
    cases hrow : tsEntry row with
    | none =>
      rw [hrow] at hstep
      have hent : tsEntries (row :: rest) = tsEntries rest := by
        unfold tsEntries
        rw [List.filterMap_cons, hrow]
      rw [hent, hstep]
    | some e =>
      rw [hrow] at hstep
      have hent : tsEntries (row :: rest) = e :: tsEntries rest := by
        unfold tsEntries
        rw [List.filterMap_cons, hrow]
      rw [hent, hstep]
      simp only [List.mem_cons]
      constructor
      · rintro (⟨f, hf, hfd⟩ | (rfl | hst))
        · exact Or.inl ⟨f, Or.inr hf, hfd⟩
        · exact Or.inl ⟨e, Or.inl rfl, rfl⟩
        · exact Or.inr hst
      · rintro (⟨f, (rfl | hf), hfd⟩ | hst)
        · exact Or.inr (Or.inl hfd.symm)
        · exact Or.inl ⟨f, hf, hfd⟩
        · exact Or.inr (Or.inr hst)

theorem nodup_chans_foldl (rows : List GA4Row) :
    ∀ st : TSMap × List String, st.2.Nodup → ((rows.foldl tsStep st).2).Nodup := by
  induction rows with
  | nil => intro st h; exact h
  | cons row rest ih =>
    intro st h
    rw [List.foldl_cons]
    apply ih
    unfold tsStep
    cases row.dimensionValues.getD [] with
    | nil => exact h
    | cons d0 t =>
      cases t with
      | nil => exact h
      | cons d1 drest => exact nodup_sinsert _ _ h

theorem nodup_keys_foldl (rows : List GA4Row) :
    ∀ st : TSMap × List String, (st.1.map Prod.fst).Nodup →
      ((rows.foldl tsStep st).1.map Prod.fst).Nodup := by
  induction rows with
  | nil => intro st h; exact h
  | cons row rest ih =>
    intro st h
    rw [List.foldl_cons]
    apply ih
    unfold tsStep
    cases row.dimensionValues.getD [] with
    | nil => exact h
    | cons d0 t =>
      cases t with
      | nil => exact h
      | cons d1 drest => exact nodup_keys_dinsert _ _ _ h

theorem lookup_map_pair {β : Type} (g : String → β) :
    ∀ (u : List String) (c : String),
      (u.map (fun s => (s, g s))).lookup c = if c ∈ u then some (g c) else none := by
  intro u
  induction u with
  | nil => intro c; simp [List.lookup]
  | cons a u ih =>
    intro c
    by_cases hca : c = a
    · subst hca
      simp [List.lookup_cons]
    · have hb : (c == a) = false := by simp [hca]
      simp [List.lookup_cons, hb, ih, hca]

theorem processRows_ok (rows : List GA4Row) :
    ∀ acc s, processRows rows acc = some s → s = snapFold (rowChannelDatas rows) acc := by
  induction rows with
  | nil =>
    intro acc s h
    simp only [processRows, Option.some.injEq] at h
    simp [rowChannelDatas, snapFold, ← h]
  | cons row rest ih =>
    intro acc s h
    unfold processRows at h
    cases hcd : rowToChannelData row with
    | none => rw [hcd] at h; exact absurd h (by simp)
    | some cd =>
      rw [hcd] at h
      have := ih (snapStep acc cd) s h
      unfold rowChannelDatas snapFold at this ⊢
      rw [List.filterMap_cons, hcd, List.foldl_cons]
      exact this

theorem email_snapFold (cds : List ChannelData) :
    ∀ acc : Snapshot, (snapFold cds acc).email_focus =
      (cds.reverse.find? (fun cd => isEmailLabel cd.channel)).or acc.email_focus := by
  induction cds with
  | nil => intro acc; simp [snapFold]
  | cons cd cds ih =>
    intro acc
    unfold snapFold
    rw [List.foldl_cons]
    have h1 : (cds.foldl snapStep (snapStep acc cd)).email_focus =
        (cds.reverse.find? (fun cd => isEmailLabel cd.channel)).or
          (snapStep acc cd).email_focus := ih (snapStep acc cd)
    rw [h1, List.reverse_cons, List.find?_append, Option.or_assoc]
    congr 1
    unfold snapStep
    by_cases he : isEmailLabel cd.channel
    · simp [List.find?_cons, he]
    · simp [List.find?_cons, he]

theorem social_snapFold (cds : List ChannelData) :
    ∀ acc : Snapshot, (snapFold cds acc).social_focus =
      (cds.reverse.find?
        (fun cd => !isEmailLabel cd.channel && isSocialLabel cd.channel)).or
        acc.social_focus := by
  induction cds with
  | nil => intro acc; simp [snapFold]
  | cons cd cds ih =>
    intro acc
    unfold snapFold
    rw [List.foldl_cons]
    have h1 := ih (snapStep acc cd)
    unfold snapFold at h1
    rw [h1, List.reverse_cons, List.find?_append, Option.or_assoc]
    congr 1
    unfold snapStep
    by_cases he : isEmailLabel cd.channel
    · simp [List.find?_cons, he]
    · by_cases hs : isSocialLabel cd.channel
      · simp [List.find?_cons, he, hs]
      · simp [List.find?_cons, he, hs]

theorem collectCampaigns_ok (rows : List GA4Row) :
    ∀ out, collectCampaigns rows = .ok out → out = keptCampaigns rows := by
  induction rows with
  | nil =>
    intro out h
    simp only [collectCampaigns] at h
    cases h
    simp [keptCampaigns]
  | cons row rest ih =>
    intro out h
    unfold collectCampaigns at h
    cases hlab : rowLabel row with
    | none => rw [hlab] at h; exact absurd h (by simp [Except.map])
    | some name =>
      rw [hlab] at h
      cases hrest : collectCampaigns rest with
      | error e => rw [hrest] at h; exact absurd h (by simp [Except.map])
      | ok tail =>
        rw [hrest] at h
        simp only [Except.map, Except.ok.injEq] at h
        have htail := ih tail hrest
        have hkept : keptCampaigns (row :: rest) =
            (if lowerStr name ∈ campaignSentinels then keptCampaigns rest
             else { campaign := name,
                    sessions := metInt (row.metricValues.getD []) 0 } :: keptCampaigns rest) := by
          unfold keptCampaigns
          rw [List.filterMap_cons]
          simp only [hlab]
          by_cases hs : lowerStr name ∈ campaignSentinels
          · simp [hs]
          · simp [hs]
        rw [hkept]
        by_cases hs : lowerStr name ∈ campaignSentinels
        · rw [if_pos hs]
          rw [if_pos hs] at h
          rw [← h, htail]
        · rw [if_neg hs]
          rw [if_neg hs] at h
          rw [← h, htail]

/-- C3: the renderer's focus-section evolution helper `get_focus_evolution`
returns 0.0 whenever the previous spotlight record is missing (or falsy),
lacks the requested metric, or records exactly 0 for it — for every
current record, in particular when the current value is positive — and
its internal `prev_val == 0` branch returning 100.0 is unreachable: the
function coincides everywhere with the variant that has that branch
removed, so the focus sections can never display the +100% new-baseline
indicator. -/
theorem c3_focus_evolution_zero :
    ∀ (current : FocusDict) (previous : Option FocusDict) (metric : String),
      (previous = none → get_focus_evolution current previous metric = 0)
      ∧ (previous = some [] → get_focus_evolution current previous metric = 0)
      ∧ (∀ p, previous = some p → p.lookup metric = none →
          get_focus_evolution current previous metric = 0)
      ∧ (∀ p, previous = some p → p.lookup metric = some 0 →
          get_focus_evolution current previous metric = 0)
      ∧ get_focus_evolution current previous metric =
          get_focus_evolution_direct current previous metric := by
  intro current previous metric
  refine ⟨?_, ?_, ?_, ?_, ?_⟩
  · rintro rfl; rfl
  · rintro rfl; simp [get_focus_evolution]
  · rintro p rfl hl
    simp [get_focus_evolution, hl]
  · rintro p rfl hl
    simp [get_focus_evolution, hl]
  · cases previous with
    | none => rfl
    | some p =>
      unfold get_focus_evolution get_focus_evolution_direct
      by_cases hp : p = []
      · simp [hp]
      · cases hl : p.lookup metric with
        | none => simp [hp, hl]
        | some v =>
          by_cases hv : v = 0
          · subst hv; simp [hp, hl]
          · have hg : (p.lookup metric).getD 0 = v := by rw [hl]; rfl
            simp [hp, hl, hv, hg]

/-- C3 witness: a concrete previous record lacking the metric yields 0. -/
theorem c3_witness :
    get_focus_evolution [("sessions", (5 : Rat))] (some [("conversions", 3)]) "sessions" = 0 :=
  (c3_focus_evolution_zero [("sessions", (5 : Rat))] (some [("conversions", 3)])
    "sessions").2.2.1 [("conversions", 3)] rfl (by decide)

/-- C2 counterexample: with a previous snapshot whose total sessions is 0
and a current total of 5, the executive-summary evolution value is 0,
while the per-channel evolution calculator applies the new/zero-baseline
rule and yields 100 on the same data — so the summary does not follow
the per-channel rule as the claim states. -/
theorem c2_counterexample :
    exec_sessions_evolution
        { channels := [{ channel := "Email", sessions := 5, conversions := 0, revenue := 0,
                         engagement_rate := 0, avg_session_duration := 0 }],
          total_sessions := 5, total_conversions := 0, total_revenue := 0,
          email_focus := none, social_focus := none }
        (some { channels := [], total_sessions := 0, total_conversions := 0,
                total_revenue := 0, email_focus := none, social_focus := none }) = 0
    ∧ (calculate_evolution_rates
        [{ channel := "Email", sessions := 5, conversions := 0, revenue := 0,
           engagement_rate := 0, avg_session_duration := 0 }] []).lookup "Email" = some 100
    ∧ (0 : Rat) ≠ 100 := by
  refine ⟨rfl, by decide, by decide⟩

/-- C2 (amended): the executive-summary evolution next to total sessions
and total conversions equals the percentage formula only when the
previous snapshot is present with a positive total; when the previous
snapshot is missing or its total is 0 (or negative), the rendered value
is 0 even if the current total is positive — the new/zero-baseline 100.0
rule of the per-channel calculator is not applied to the summary
totals. -/
theorem c2_summary_evolution :
    ∀ (data p : Snapshot),
      (0 < p.total_sessions →
        exec_sessions_evolution data (some p) =
          ((data.total_sessions : Rat) - (p.total_sessions : Rat)) /
            (p.total_sessions : Rat) * 100)
      ∧ (p.total_sessions ≤ 0 → exec_sessions_evolution data (some p) = 0)
      ∧ exec_sessions_evolution data none = 0
      ∧ (0 < p.total_conversions →
        exec_conversions_evolution data (some p) =
          ((data.total_conversions : Rat) - (p.total_conversions : Rat)) /
            (p.total_conversions : Rat) * 100)
      ∧ (p.total_conversions ≤ 0 → exec_conversions_evolution data (some p) = 0)
      ∧ exec_conversions_evolution data none = 0 := by
  intro data p
  refine ⟨fun h => ?_, fun h => ?_, rfl, fun h => ?_, fun h => ?_, rfl⟩
  · simp [exec_sessions_evolution, h]
  · simp [exec_sessions_evolution, not_lt.mpr h]
  · simp [exec_conversions_evolution, h]
  · simp [exec_conversions_evolution, not_lt.mpr h]

/-- C2 witness: current total 75 against previous total 50 renders 50%. -/
theorem c2_witness :
    exec_sessions_evolution
        { channels := [], total_sessions := 75, total_conversions := 0, total_revenue := 0,
          email_focus := none, social_focus := none }
        (some { channels := [], total_sessions := 50, total_conversions := 0,
                total_revenue := 0, email_focus := none, social_focus := none }) = 50 := by
  have h := (c2_summary_evolution
    { channels := [], total_sessions := 75, total_conversions := 0, total_revenue := 0,
      email_focus := none, social_focus := none }
    { channels := [], total_sessions := 50, total_conversions := 0, total_revenue := 0,
      email_focus := none, social_focus := none }).1 (by decide)
  rw [h]
  norm_num

/-- C7: the channel aggregator does default short metric rows (indices
beyond the row's metric list become 0), but it does not never-fail — a
row whose `dimensionValues` key is present with an empty list raises an
`IndexError` (modelled `.error ()`), while only a row whose
`dimensionValues` key is absent gets the "Unknown" label and zero-filled
metrics. -/
theorem c7_short_row_failure :
    process_ga4_response (some [{ dimensionValues := some [], metricValues := some [] }]) =
      .error ()
    ∧ (process_ga4_response (some [{ dimensionValues := none, metricValues := none }])).map
        (fun r => r.map (fun s => (s.channels, s.email_focus, s.social_focus))) =
      .ok (some ([{ channel := "Unknown", sessions := 0, conversions := 0,
                    revenue := 0, engagement_rate := 0, avg_session_duration := 0 }],
                 none, none)) := by
  refine ⟨rfl, by decide⟩

theorem lookup_previous_by_channel (previous : List ChannelData) (s : String) :
    (previous_by_channel previous).lookup s =
      (previous.reverse.find? (fun cd => cd.channel == s)).map (fun cd => cd.sessions) := by
  unfold previous_by_channel
  have h := lookup_foldl_dinsert (fun cd : ChannelData => cd.channel)
    (fun cd : ChannelData => cd.sessions) previous [] s
  simpa using h

theorem lookup_calculate_evolution (current previous : List ChannelData) (s : String) :
    (calculate_evolution_rates current previous).lookup s =
      (current.reverse.find? (fun cd => cd.channel == s)).map
        (fun cd => evoRate cd.sessions
          (((previous_by_channel previous).lookup cd.channel).getD 0)) := by
  unfold calculate_evolution_rates
  have h := lookup_foldl_dinsert (fun cd : ChannelData => cd.channel)
    (fun cd : ChannelData => evoRate cd.sessions
      (((previous_by_channel previous).lookup cd.channel).getD 0)) current [] s
  simpa using h

/-- C1: for every pair of snapshots with one entry per distinct channel
label (the data model's uniqueness invariant), the evolution map's keys
are exactly the labels of the current snapshot's channel list, and for a
channel whose previous sessions are recorded positive the value is
(current − previous) / previous × 100, while a channel missing from the
previous snapshot or recorded with 0 sessions gets exactly 100 when its
current sessions are positive and 0.0 otherwise. -/
theorem c1_evolution_rates :
    ∀ (current previous : List ChannelData),
      (current.map (fun cd => cd.channel)).Nodup →
      (previous.map (fun cd => cd.channel)).Nodup →
      ((∀ name, ((calculate_evolution_rates current previous).lookup name).isSome ↔
          name ∈ current.map (fun cd => cd.channel))
      ∧ ∀ cd ∈ current,
          ((∀ pd, previous.find? (fun p => p.channel == cd.channel) = some pd →
              0 < pd.sessions →
              (calculate_evolution_rates current previous).lookup cd.channel =
                some (((cd.sessions : Rat) - (pd.sessions : Rat)) /
                  (pd.sessions : Rat) * 100))
          ∧ ((previous.find? (fun p => p.channel == cd.channel) = none ∨
              (∃ pd, previous.find? (fun p => p.channel == cd.channel) = some pd ∧
                pd.sessions = 0)) →
              (calculate_evolution_rates current previous).lookup cd.channel =
                some (if 0 < cd.sessions then (100 : Rat) else 0)))) := by
  intro current previous hc hp
  constructor
  · intro name
    rw [lookup_calculate_evolution]
    cases hf : current.reverse.find? (fun cd => cd.channel == name) with
    | none =>
      rw [List.find?_eq_none] at hf
      simp only [Option.map_none', Option.isSome_none]
      constructor
      · intro hfalse; exact absurd hfalse (by simp)
      · intro hmem
        obtain ⟨cd, hcd, hch⟩ := List.mem_map.mp hmem
        exact absurd (by simp [hch]) (hf cd (List.mem_reverse.mpr hcd))
    | some cd =>
      simp only [Option.map_some', Option.isSome_some, true_iff]
      have hmem : cd ∈ current.reverse := List.mem_of_find?_eq_some hf
      have hch : cd.channel = name := by simpa using List.find?_some hf
      exact List.mem_map.mpr ⟨cd, List.mem_reverse.mp hmem, hch⟩
  · intro cd hcd
    have hfind : current.reverse.find? (fun x => x.channel == cd.channel) = some cd := by
      apply find?_key_of_mem_nodup (fun x : ChannelData => x.channel) current.reverse cd
      · rw [List.map_reverse]
        exact List.nodup_reverse.mpr hc
      · exact List.mem_reverse.mpr hcd
    constructor
    · intro pd hpd hpos
      rw [lookup_calculate_evolution, hfind, Option.map_some']
      rw [lookup_previous_by_channel,
        find?_reverse_nodup (fun x : ChannelData => x.channel) previous cd.channel hp,
        hpd, Option.map_some', Option.getD_some]
      unfold evoRate
      rw [if_pos hpos]
    · intro hmiss
      rw [lookup_calculate_evolution, hfind, Option.map_some']
      rw [lookup_previous_by_channel,
        find?_reverse_nodup (fun x : ChannelData => x.channel) previous cd.channel hp]
      rcases hmiss with hnone | ⟨pd, hpd, hzero⟩
      · rw [hnone]
        simp [evoRate]
      · rw [hpd, Option.map_some', Option.getD_some, hzero]
        simp [evoRate]

/-- C1 witness: previous sessions 50, current 75 gives evolution 50%. -/
theorem c1_witness :
    (calculate_evolution_rates
        [{ channel := "A", sessions := 75, conversions := 0, revenue := 0,
           engagement_rate := 0, avg_session_duration := 0 }]
        [{ channel := "A", sessions := 50, conversions := 0, revenue := 0,
           engagement_rate := 0, avg_session_duration := 0 }]).lookup "A" = some 50 := by
  have h := ((c1_evolution_rates
      [{ channel := "A", sessions := 75, conversions := 0, revenue := 0,
         engagement_rate := 0, avg_session_duration := 0 }]
      [{ channel := "A", sessions := 50, conversions := 0, revenue := 0,
         engagement_rate := 0, avg_session_duration := 0 }]
      (by decide) (by decide)).2
    { channel := "A", sessions := 75, conversions := 0, revenue := 0,
      engagement_rate := 0, avg_session_duration := 0 } (by decide)).1
    { channel := "A", sessions := 50, conversions := 0, revenue := 0,
      engagement_rate := 0, avg_session_duration := 0 } (by decide) (by decide)
  rw [h]
  norm_num

/-- C8: when the processed current-period snapshot is empty (falsy dict or
empty channel list), the orchestrated job returns successfully with an
empty effect trace: no narrative call, no storage write, no mail
attempt. -/
theorem c8_empty_data_no_side_effects :
    ∀ (inp : OrchInputs) (r : Option Snapshot),
      process_ga4_response inp.currentResp = .ok r →
      (r = none ∨ ∃ s, r = some s ∧ s.channels = []) →
      run_monthly_analysis inp = (.ok none, []) := by
  intro inp r h hr
  unfold run_monthly_analysis
  rcases hr with rfl | ⟨s, rfl, hs⟩
  · rw [h]
  · rw [h]
    simp [hs]

/-- C8 witness: a current-period response with zero rows yields a
successful run with no effects, whatever the other collaborators do. -/
theorem c8_witness :
    run_monthly_analysis
      { currentResp := some [], campaignResp := none, prevResp := none,
        narrative := none, storageOk := true, sendOutcome := fun _ => .ok () } =
      (.ok none, []) :=
  c8_empty_data_no_side_effects
    { currentResp := some [], campaignResp := none, prevResp := none,
      narrative := none, storageOk := true, sendOutcome := fun _ => .ok () }
    (some initSnapshot) rfl (Or.inr ⟨initSnapshot, rfl, rfl⟩)

theorem deliveryLoop_recipients (attempt : String → Except String Unit) :
    ∀ rs : List String, (deliveryLoop attempt rs).filterMap mailRecipient = rs := by
  intro rs
  induction rs with
  | nil => rfl
  | cons r rest ih =>
    unfold deliveryLoop
    cases attempt r with
    | ok u => simp [List.filterMap_cons, mailRecipient, ih]
    | error e => simp [List.filterMap_cons, mailRecipient, ih]

/-- C10: the delivery loop attempts every recipient of the list in order
for every outcome assignment — an absorbed per-recipient failure does not
stop the loop — and consequently, whenever a run reaches the delivery
phase, its effect trace contains exactly one mail attempt per entry of
the fixed recipient list, in order. -/
theorem c10_delivery_isolated :
    (∀ (attempt : String → Except String Unit) (rs : List String),
        (deliveryLoop attempt rs).filterMap mailRecipient = rs)
    ∧ ∀ (inp : OrchInputs) (snap : Snapshot) (camps : List CampaignRow)
        (pr : Option Snapshot),
        process_ga4_response inp.currentResp = .ok (some snap) →
        snap.channels ≠ [] →
        process_campaign_response inp.campaignResp = .ok camps →
        process_ga4_response inp.prevResp = .ok pr →
        (run_monthly_analysis inp).2.filterMap mailRecipient = RECIPIENTS := by
  constructor
  · exact deliveryLoop_recipients
  · intro inp snap camps pr h1 h2 h3 h4
    unfold run_monthly_analysis
    rw [h1]
    simp only [if_neg h2]
    rw [h3, h4]
    simp [List.filterMap_cons, mailRecipient, deliveryLoop_recipients]

/-- C10 witness: with a failing send outcome for the second recipient,
 all five recipients of the fixed list are still attempted in order. -/
theorem c10_witness :
    (run_monthly_analysis
      { currentResp := some [{ dimensionValues := some [some "Direct"],
                               metricValues := some [] }],
        campaignResp := none, prevResp := none, narrative := none, storageOk := false,
        sendOutcome := fun r =>
          if r = "mnunez@avisia.fr" then .error "boom" else .ok () }).2.filterMap
      mailRecipient = RECIPIENTS :=
  c10_delivery_isolated.2
    { currentResp := some [{ dimensionValues := some [some "Direct"],
                             metricValues := some [] }],
      campaignResp := none, prevResp := none, narrative := none, storageOk := false,
      sendOutcome := fun r =>
        if r = "mnunez@avisia.fr" then .error "boom" else .ok () }
    { channels := [{ channel := "Direct", sessions := 0, conversions := 0, revenue := 0,
                     engagement_rate := 0, avg_session_duration := 0 }],
      total_sessions := 0, total_conversions := 0, total_revenue := 0 + 0,
      email_focus := none, social_focus := none }
    [] none rfl (by decide) rfl rfl

theorem mem_sortDesc {a : Type} (key : a → Int) (x : a) (l : List a) :
    x ∈ sortDesc key l ↔ x ∈ l := by
  induction l with
  | nil => simp [sortDesc]
  | cons y ys ih =>
    have hstep : sortDesc key (y :: ys) = insertDesc key y (sortDesc key ys) := rfl
    rw [hstep, mem_insertDesc, ih]
    simp

/-- C4 counterexample: with rows labelled "Email A", "Email B",
"Email Social" (in that order), the first row whose label contains
"email" is "Email A" and the first whose label matches a social keyword
is "Email Social"; but the processed snapshot's email spotlight is
"Email Social" (last match wins) and its social spotlight is empty (the
`elif` never sees labels that contain "email"), contradicting the
first-match claim on both counts. -/
theorem c4_counterexample :
    ((rowChannelDatas
        [{ dimensionValues := some [some "Email A"], metricValues := some [] },
         { dimensionValues := some [some "Email B"], metricValues := some [] },
         { dimensionValues := some [some "Email Social"], metricValues := some [] }]).find?
      (fun cd => isEmailLabel cd.channel)).map (fun cd => cd.channel) = some "Email A"
    ∧ ((rowChannelDatas
        [{ dimensionValues := some [some "Email A"], metricValues := some [] },
         { dimensionValues := some [some "Email B"], metricValues := some [] },
         { dimensionValues := some [some "Email Social"], metricValues := some [] }]).find?
      (fun cd => isSocialLabel cd.channel)).map (fun cd => cd.channel) =
        some "Email Social"
    ∧ (process_ga4_response
        (some [{ dimensionValues := some [some "Email A"], metricValues := some [] },
               { dimensionValues := some [some "Email B"], metricValues := some [] },
               { dimensionValues := some [some "Email Social"],
                 metricValues := some [] }])).map
        (fun r => r.map (fun s => (s.email_focus.map (fun cd => cd.channel),
                                   s.social_focus))) =
      .ok (some (some "Email Social", none))
    ∧ some "Email Social" ≠ some ("Email A" : String) := by
  refine ⟨by decide, by decide, by decide, by decide⟩

/-- C4 (amended): for every row list the aggregator processes without
error, the email spotlight is the last ChannelMetric in source row order
whose label case-insensitively contains "email", and the social
spotlight is the last ChannelMetric whose label does not contain "email"
and contains "social", "facebook", or "instagram" (a label matching both
families is claimed by the email branch only). -/
theorem c4_spotlights :
    ∀ (rows : List GA4Row) (snap : Snapshot),
      process_ga4_response (some rows) = .ok (some snap) →
      snap.email_focus =
        (rowChannelDatas rows).reverse.find? (fun cd => isEmailLabel cd.channel)
      ∧ snap.social_focus =
        (rowChannelDatas rows).reverse.find?
          (fun cd => !isEmailLabel cd.channel && isSocialLabel cd.channel) := by
  intro rows snap h
  have hunf : process_ga4_response (some rows) =
      (match processRows rows initSnapshot with
       | none => Except.error ()
       | some s =>
         Except.ok (some { s with channels := sortDesc (fun cd => cd.sessions) s.channels })) :=
    rfl
  rw [hunf] at h
  cases hpr : processRows rows initSnapshot with
  | none => rw [hpr] at h; exact absurd h (by simp)
  | some s =>
    rw [hpr] at h
    simp only [Except.ok.injEq, Option.some.injEq] at h
    have hs := processRows_ok rows initSnapshot s hpr
    constructor
    · rw [← h]
      show s.email_focus = _
      rw [hs, email_snapFold]
      simp [initSnapshot]
    · rw [← h]
      show s.social_focus = _
      rw [hs, social_snapFold]
      simp [initSnapshot]

/-- C4 witness: of two email-labelled rows the later one is the
spotlight. -/
theorem c4_witness :
    ∃ snap,
      process_ga4_response
        (some [{ dimensionValues := some [some "Email A"], metricValues := some [] },
               { dimensionValues := some [some "Email B"],
                 metricValues := some [] }]) = .ok (some snap)
      ∧ snap.email_focus.map (fun cd => cd.channel) = some "Email B" := by
  have hproj : (process_ga4_response
      (some [{ dimensionValues := some [some "Email A"], metricValues := some [] },
             { dimensionValues := some [some "Email B"], metricValues := some [] }])).map
      (fun r => r.map (fun s => s.email_focus.map (fun cd => cd.channel))) =
      .ok (some (some "Email B")) := by decide
  cases hres : process_ga4_response
      (some [{ dimensionValues := some [some "Email A"], metricValues := some [] },
             { dimensionValues := some [some "Email B"], metricValues := some [] }]) with
  | error e => rw [hres] at hproj; simp [Except.map] at hproj
  | ok r =>
    cases r with
    | none => rw [hres] at hproj; simp [Except.map] at hproj
    | some snap =>
      refine ⟨snap, rfl, ?_⟩
      have hfoc := (c4_spotlights _ snap hres).1
      rw [hfoc]
      decide

/-- C5 counterexample: a campaign named " (not set) " (with surrounding
whitespace) is kept in the ranked output even though its name after
trimming and lowercasing is in the sentinel set, because the code
lowercases but never trims. -/
theorem c5_counterexample :
    process_campaign_response
        (some [{ dimensionValues := some [some " (not set) "],
                 metricValues := some [some 7] }]) =
      .ok [{ campaign := " (not set) ", sessions := 7 }]
    ∧ lowerStr (String.mk (pyStrip " (not set) ".data)) ∈ campaignSentinels := by
  refine ⟨by decide, by decide⟩

/-- C5 (amended): the ranker's output contains exactly the input rows
whose campaign name, lowercased but not trimmed, is not in the sentinel
set (duplicate names stay separate entries), sorted by sessions in
non-increasing order with ties keeping their original relative order
(expressed by the per-key filter equalities). -/
theorem c5_campaign_ranking :
    ∀ (rows : List GA4Row) (out : List CampaignRow),
      process_campaign_response (some rows) = .ok out →
      ((∀ k : Int, out.filter (fun c => c.sessions == k) =
          (keptCampaigns rows).filter (fun c => c.sessions == k))
      ∧ out.Pairwise (fun a b => b.sessions ≤ a.sessions)
      ∧ (∀ c, c ∈ out ↔ c ∈ keptCampaigns rows)) := by
  intro rows out h
  have hunf : process_campaign_response (some rows) =
      (collectCampaigns rows).map (sortDesc (fun c => c.sessions)) := rfl
  rw [hunf] at h
  cases hcol : collectCampaigns rows with
  | error e => rw [hcol] at h; exact absurd h (by simp [Except.map])
  | ok kept =>
    rw [hcol] at h
    simp only [Except.map, Except.ok.injEq] at h
    have hk := collectCampaigns_ok rows kept hcol
    refine ⟨?_, ?_, ?_⟩
    · intro k
      rw [← h, ← hk]
      exact filter_sortDesc (fun c : CampaignRow => c.sessions) k kept
    · rw [← h]
      exact pairwise_sortDesc (fun c : CampaignRow => c.sessions) kept
    · intro c
      rw [← h, ← hk]
      exact mem_sortDesc (fun c : CampaignRow => c.sessions) c kept

/-- C5 witness: a sentinel row is dropped, duplicate "Spring Sale" rows
stay separate, and the output is sorted descending by sessions. -/
theorem c5_witness :
    ([{ campaign := "Spring Sale", sessions := 5 },
      { campaign := "Spring Sale", sessions := 3 }] :
        List CampaignRow).Pairwise (fun a b => b.sessions ≤ a.sessions)
    ∧ (∀ c, c ∈ ([{ campaign := "Spring Sale", sessions := 5 },
        { campaign := "Spring Sale", sessions := 3 }] : List CampaignRow) ↔
        c ∈ keptCampaigns
          [{ dimensionValues := some [some "Spring Sale"], metricValues := some [some 3] },
           { dimensionValues := some [some "(not set)"], metricValues := some [some 9] },
           { dimensionValues := some [some "Spring Sale"],
             metricValues := some [some 5] }]) := by
  have h := c5_campaign_ranking
    [{ dimensionValues := some [some "Spring Sale"], metricValues := some [some 3] },
     { dimensionValues := some [some "(not set)"], metricValues := some [some 9] },
     { dimensionValues := some [some "Spring Sale"], metricValues := some [some 5] }]
    [{ campaign := "Spring Sale", sessions := 5 },
     { campaign := "Spring Sale", sessions := 3 }] (by decide)
  exact ⟨h.2.1, h.2.2⟩

theorem tsStep_skip (st : TSMap × List String) (row : GA4Row)
    (h : tsEntry row = none) : tsStep st row = st := by
  unfold tsStep
  unfold tsEntry at h
  cases hdims : row.dimensionValues.getD [] with
  | nil => simp
  | cons d0 t =>
    cases t with
    | nil => simp
    | cons d1 r =>
      rw [hdims] at h
      simp at h

theorem foldl_tsStep_filter :
    ∀ (rows : List GA4Row) (st : TSMap × List String),
      rows.foldl tsStep st =
        (rows.filter (fun r => (tsEntry r).isSome)).foldl tsStep st := by
  intro rows
  induction rows with
  | nil => intro st; rfl
  | cons row rest ih =>
    intro st
    rw [List.filter_cons]
    cases hrow : tsEntry row with
    | none =>
      simp only [hrow, Option.isSome_none, Bool.false_eq_true, if_false]
      rw [List.foldl_cons, tsStep_skip st row hrow, ih]
    | some e =>
      simp only [hrow, Option.isSome_some, if_true]
      rw [List.foldl_cons, List.foldl_cons, ih]

theorem process_ts_filter (rows : List GA4Row) :
    process_time_series_response (some rows) =
      process_time_series_response (some (rows.filter (fun r => (tsEntry r).isSome))) := by
  have hunf1 : process_time_series_response (some rows) =
      (fun st : TSMap × List String =>
        some { dates := sortAsc (st.1.map Prod.fst),
               by_channel := st.2.map
                 (fun c => (c, (sortAsc (st.1.map Prod.fst)).map
                   (fun d => tsGet st.1 d c))) }) (rows.foldl tsStep ([], [])) := rfl
  have hunf2 : process_time_series_response
      (some (rows.filter (fun r => (tsEntry r).isSome))) =
      (fun st : TSMap × List String =>
        some { dates := sortAsc (st.1.map Prod.fst),
               by_channel := st.2.map
                 (fun c => (c, (sortAsc (st.1.map Prod.fst)).map
                   (fun d => tsGet st.1 d c))) })
        ((rows.filter (fun r => (tsEntry r).isSome)).foldl tsStep ([], [])) := rfl
  rw [hunf1, hunf2, foldl_tsStep_filter rows ([], [])]

/-- C6: for every time-series response, rows with fewer than 2 dimension
values are skipped without failing (the output equals the output on the
kept rows), the date axis is the set of observed dates of kept rows
sorted ascending without duplicates, every observed channel has a series
of exactly the date axis's length, and each position holds the recorded
session count for that (date, channel) pair — 0 when the pair is absent
from the kept rows, the row's count when the pair occurs (uniquely, per
the one-row-per-dimension-combination data model). -/
theorem c6_time_series :
    ∀ (rows : List GA4Row) (ts : TimeSeries),
      process_time_series_response (some rows) = some ts →
      (process_time_series_response (some rows) =
          process_time_series_response (some (rows.filter (fun r => (tsEntry r).isSome)))
      ∧ ts.dates.Pairwise (fun a b => lexLe a.data b.data = true)
      ∧ ts.dates.Nodup
      ∧ (∀ d, d ∈ ts.dates ↔ ∃ e ∈ tsEntries rows, e.1 = d)
      ∧ (∀ c, (ts.by_channel.lookup c).isSome ↔ ∃ e ∈ tsEntries rows, e.2.1 = c)
      ∧ (∀ p ∈ ts.by_channel, p.2.length = ts.dates.length)
      ∧ (∀ c series, ts.by_channel.lookup c = some series →
          ∀ i (hi : i < ts.dates.length) (hs : i < series.length),
            ((∀ e ∈ tsEntries rows, ¬(e.1 = ts.dates.get ⟨i, hi⟩ ∧ e.2.1 = c)) →
              series.get ⟨i, hs⟩ = 0)
            ∧ ((tsEntries rows).Pairwise (fun e f => ¬(e.1 = f.1 ∧ e.2.1 = f.2.1)) →
              ∀ e ∈ tsEntries rows, e.1 = ts.dates.get ⟨i, hi⟩ → e.2.1 = c →
                series.get ⟨i, hs⟩ = e.2.2))) := by
  intro rows ts h
  have hunf : process_time_series_response (some rows) =
      some { dates := sortAsc ((rows.foldl tsStep ([], [])).1.map Prod.fst),
             by_channel := (rows.foldl tsStep ([], [])).2.map
               (fun c => (c, (sortAsc ((rows.foldl tsStep ([], [])).1.map Prod.fst)).map
                 (fun d => tsGet (rows.foldl tsStep ([], [])).1 d c))) } := rfl
  rw [hunf] at h
  have hts : ts =
      { dates := sortAsc ((rows.foldl tsStep ([], [])).1.map Prod.fst),
        by_channel := (rows.foldl tsStep ([], [])).2.map
          (fun c => (c, (sortAsc ((rows.foldl tsStep ([], [])).1.map Prod.fst)).map
            (fun d => tsGet (rows.foldl tsStep ([], [])).1 d c))) } :=
    (Option.some.inj h).symm
  subst hts
  have hnk : ((rows.foldl tsStep ([], [])).1.map Prod.fst).Nodup :=
    nodup_keys_foldl rows ([], []) (by simp)
  refine ⟨process_ts_filter rows, ?_, ?_, ?_, ?_, ?_, ?_⟩
  · exact pairwise_sortAsc _
  · exact nodup_sortAsc _ hnk
  · intro d
    show d ∈ sortAsc ((rows.foldl tsStep ([], [])).1.map Prod.fst) ↔ _
    rw [mem_sortAsc]
    have hk := keys_foldl rows ([], []) d
    simp only [List.map_nil, List.not_mem_nil, or_false] at hk
    exact hk
  · intro c
    show ((((rows.foldl tsStep ([], [])).2).map
      (fun c => (c, (sortAsc ((rows.foldl tsStep ([], [])).1.map Prod.fst)).map
        (fun d => tsGet (rows.foldl tsStep ([], [])).1 d c)))).lookup c).isSome ↔ _
    rw [lookup_map_pair]
    have hch := chans_foldl rows ([], []) c
    simp only [List.not_mem_nil, or_false] at hch
    by_cases hc : c ∈ (rows.foldl tsStep ([], [])).2
    · simp only [if_pos hc, Option.isSome_some, true_iff]
      exact hch.mp hc
    · simp only [if_neg hc, Option.isSome_none, Bool.false_eq_true, false_iff]
      intro hex
      exact hc (hch.mpr hex)
  · intro p hp
    obtain ⟨c, hc, rfl⟩ := List.mem_map.mp hp
    simp
  · intro c series hlk i hi hs
    have hlk' : ((((rows.foldl tsStep ([], [])).2).map
        (fun c => (c, (sortAsc ((rows.foldl tsStep ([], [])).1.map Prod.fst)).map
          (fun d => tsGet (rows.foldl tsStep ([], [])).1 d c)))).lookup c) = some series := hlk
    rw [lookup_map_pair] at hlk'
    by_cases hc : c ∈ (rows.foldl tsStep ([], [])).2
    · rw [if_pos hc] at hlk'
      have hser : ((sortAsc ((rows.foldl tsStep ([], [])).1.map Prod.fst)).map
          (fun d => tsGet (rows.foldl tsStep ([], [])).1 d c)) = series :=
        Option.some.inj hlk'
      subst hser
      have hgd : ∀ (j : Nat)
          (hj : j < (sortAsc ((rows.foldl tsStep ([], [])).1.map Prod.fst)).length),
          tsGet (rows.foldl tsStep ([], [])).1
            ((sortAsc ((rows.foldl tsStep ([], [])).1.map Prod.fst)).get ⟨j, hj⟩) c =
          (specLastVal (tsEntries rows)
            ((sortAsc ((rows.foldl tsStep ([], [])).1.map Prod.fst)).get ⟨j, hj⟩) c).getD 0 := by
        intro j hj
        have h1 : tsFind (([], []) : TSMap × List String).1
            ((sortAsc ((rows.foldl tsStep ([], [])).1.map Prod.fst)).get ⟨j, hj⟩) c =
            none := rfl
        have h2 : tsGet (rows.foldl tsStep ([], [])).1
            ((sortAsc ((rows.foldl tsStep ([], [])).1.map Prod.fst)).get ⟨j, hj⟩) c =
            (tsFind (rows.foldl tsStep ([], [])).1
              ((sortAsc ((rows.foldl tsStep ([], [])).1.map Prod.fst)).get ⟨j, hj⟩) c).getD 0 :=
          rfl
        rw [h2, tsFind_foldl, h1, Option.or_none]
      have hget : (((sortAsc ((rows.foldl tsStep ([], [])).1.map Prod.fst)).map
            (fun d => tsGet (rows.foldl tsStep ([], [])).1 d c)).get ⟨i, hs⟩) =
          tsGet (rows.foldl tsStep ([], [])).1
            ((sortAsc ((rows.foldl tsStep ([], [])).1.map Prod.fst)).get
              ⟨i, by simpa using hi⟩) c := by
        rw [List.get_map]
      constructor
      · intro habs
        rw [hget, hgd i (by simpa using hi)]
        rw [specLastVal_eq_none _ _ _ (fun e he => habs e he)]
        rfl
      · intro hnodup e he hed hec
        rw [hget, hgd i (by simpa using hi)]
        rw [specLastVal_eq_of_mem _ _ _ hnodup e he hed hec]
        rfl
    · rw [if_neg hc] at hlk'
      exact absurd hlk' (by simp)

/-- C6 witness: the spec's density example — dates 2025-01-01/02,
channels Email/Organic, only (2025-01-01, Email)=10 and a zero row for
(2025-01-02, Organic): Email's series is [10, 0] and Organic's is
[0, 0]. -/
theorem c6_witness :
    process_time_series_response
        (some [{ dimensionValues := some [some "2025-01-01", some "Email"],
                 metricValues := some [some 10] },
               { dimensionValues := some [some "2025-01-02", some "Organic"],
                 metricValues := some [some 0] }]) =
      some { dates := ["2025-01-01", "2025-01-02"],
             by_channel := [("Email", [10, 0]), ("Organic", [0, 0])] }
    ∧ (["2025-01-01", "2025-01-02"] : List String).Pairwise
        (fun a b => lexLe a.data b.data = true)
    ∧ (["2025-01-01", "2025-01-02"] : List String).Nodup := by
  have h := c6_time_series
    [{ dimensionValues := some [some "2025-01-01", some "Email"],
       metricValues := some [some 10] },
     { dimensionValues := some [some "2025-01-02", some "Organic"],
       metricValues := some [some 0] }]
    { dates := ["2025-01-01", "2025-01-02"],
      by_channel := [("Email", [10, 0]), ("Organic", [0, 0])] }
    (by decide)
  exact ⟨by decide, h.2.1, h.2.2.1⟩

theorem convLines_cons_bullet (line : List Char) (rest : List (List Char)) (inl : Bool)
    (hb : isBulletLine line = true) :
    convLines (line :: rest) inl =
      (if inl then [] else [ulOpenLine]) ++ liRender line :: convLines rest true := by
  have h := hb
  unfold isBulletLine at h
  simp only [Bool.and_eq_true, Bool.not_eq_true'] at h
  obtain ⟨⟨h1, h2⟩, h3⟩ := h
  simp only [convLines, h1, h2, h3, Bool.false_eq_true, if_false, if_true, liRender,
    List.singleton_append, List.cons_append, List.nil_append]
  simp

theorem convLines_cons_nonbullet (line : List Char) (rest : List (List Char)) (inl : Bool)
    (hb : isBulletLine line = false) :
    convLines (line :: rest) inl =
      (if inl then [ulCloseLine] else []) ++ renderNonBullet line :: convLines rest false := by
  by_cases h1 : "### ".data.isPrefixOf (pyStrip line) = true
  · simp only [convLines, renderNonBullet, h1, if_true, List.singleton_append,
      List.cons_append, List.nil_append]
    simp
  · have h1f : "### ".data.isPrefixOf (pyStrip line) = false := by
      revert h1; cases "### ".data.isPrefixOf (pyStrip line) <;> simp
    by_cases h2 : "## ".data.isPrefixOf (pyStrip line) = true
    · simp only [convLines, renderNonBullet, h1f, h2, Bool.false_eq_true, if_false,
        if_true, List.singleton_append, List.cons_append, List.nil_append]
      simp
    · have h2f : "## ".data.isPrefixOf (pyStrip line) = false := by
        revert h2; cases "## ".data.isPrefixOf (pyStrip line) <;> simp
      have h3 : ("* ".data.isPrefixOf (pyStrip line) ||
          "- ".data.isPrefixOf (pyStrip line)) = false := by
        unfold isBulletLine at hb
        simp only [h1f, h2f, Bool.not_false, Bool.true_and] at hb
        exact hb
      simp only [convLines, renderNonBullet, h1f, h2f, h3, Bool.false_eq_true, if_false,
        List.singleton_append, List.cons_append, List.nil_append]
      simp

theorem specGroup_cons_bullet (line : List Char) (rest : List (List Char))
    (hb : isBulletLine line = true) :
    specGroup (line :: rest) =
      ulOpenLine :: (((line :: rest).takeWhile isBulletLine).map liRender ++
        ulCloseLine :: specGroup ((line :: rest).dropWhile isBulletLine)) := by
  rw [specGroup]
  simp [hb]

theorem specGroup_cons_nonbullet (line : List Char) (rest : List (List Char))
    (hb : isBulletLine line = false) :
    specGroup (line :: rest) = renderNonBullet line :: specGroup rest := by
  rw [specGroup]
  simp [hb]

theorem convLines_specGroup :
    ∀ lines : List (List Char),
      convLines lines false = specGroup lines
      ∧ convLines lines true =
          (lines.takeWhile isBulletLine).map liRender ++
            ulCloseLine :: specGroup (lines.dropWhile isBulletLine) := by
  intro lines
  induction lines with
  | nil =>
    constructor
    · simp [convLines, specGroup]
    · simp [convLines, specGroup]
  | cons line rest ih =>
    obtain ⟨ihF, ihT⟩ := ih
    by_cases hb : isBulletLine line = true
    · constructor
      · rw [convLines_cons_bullet line rest false hb,
          specGroup_cons_bullet line rest hb, ihT]
        simp [List.takeWhile_cons, List.dropWhile_cons, hb]
      · rw [convLines_cons_bullet line rest true hb, ihT]
        simp [List.takeWhile_cons, List.dropWhile_cons, hb]
    · have hb' : isBulletLine line = false := by
        revert hb; cases isBulletLine line <;> simp
      constructor
      · rw [convLines_cons_nonbullet line rest false hb',
          specGroup_cons_nonbullet line rest hb', ihF]
        simp
      · rw [convLines_cons_nonbullet line rest true hb', ihF]
        simp only [List.takeWhile_cons, List.dropWhile_cons, hb', Bool.false_eq_true,
          if_false, List.map_nil, List.nil_append]
        rw [specGroup_cons_nonbullet line rest hb']
        simp

set_option maxRecDepth 100000 in
/-- C9: the narrative formatter classifies every line by the first
matching pattern in the fixed order heading-3 (`### `), heading-2
(`## `), bullet (`* `/`- `), fallback (paragraph or break) and wraps
every maximal run of consecutive bullet lines in exactly one enclosing
list closed at the first following non-bullet line or at end of input:
the line loop (`convLines`) coincides with the run-grouping rendering
(`specGroup`) on all inputs, and on `"### Title\n* a\n* b\n"` (after the
inline bold pass) the full formatter emits a heading for "Title", one
list holding exactly the items "a" and "b", and closes the list before
the end of the output. -/
theorem c9_markdown_grouping :
    (∀ lines : List (List Char), convLines lines false = specGroup lines)
    ∧ markdown_to_html "### Title\n* a\n* b\n" =
        "<h4 style=\"color: #2ea3f2; margin: 15px 0 10px 0; font-weight: 600;\">Title</h4>\n<ul style=\"margin: 10px 0; padding-left: 20px;\">\n<li style=\"margin: 5px 0;\">a</li>\n<li style=\"margin: 5px 0;\">b</li>\n</ul>\n<br/>" := by
  constructor
  · intro lines
    exact (convLines_specGroup lines).1
  · decide

end Avisia
